import Mathlib

set_option maxHeartbeats 1000000

/-!
Verification of the Notion → Google Calendar one-way reconciler.

The definitions below are a shallow embedding of the reconciler source
(the main script: `sync`, `syncGCal`, `syncNotion`, `getPages`/`reducePage`,
`createEvent`, `eventsEqual`).  JavaScript `undefined` is modelled as
`Option.none`; JavaScript string truthiness (`undefined` and `""` are falsy)
is modelled by `jsTruthy`; the JS `Map` (unique keys, insertion order) is
modelled as an association list; `Date.parse` is modelled by `dateParse`,
returning `none` for `NaN` (in particular `Date.parse(undefined)` is `NaN`,
and the JS comparison `NaN == NaN` is `false`, modelled by `jsEqNum`).
The network calls issued by a pass are reified as a list of `Call`s.
-/

/-- A reduced page, the output of `reducePage`: the record that drives event
construction.  Fields that may be JS `undefined` are `Option`s. -/
structure Page where
  id : String
  name : Option String
  course : Option String
  date : Option String
  status : Option String
deriving DecidableEq

/-- The `start`/`end` object of a Google Calendar event: either an all-day
`{date}` or a timed `{dateTime}` (or, in principle, neither/both, since JS
objects are untyped). -/
structure EventTime where
  date : Option String
  dateTime : Option String
deriving DecidableEq

/-- A Google Calendar event body as built by `createEvent` and compared by
`eventsEqual`: summary, description (the back-reference to the page id),
start and end. -/
structure Event where
  summary : String
  description : String
  start : EventTime
  end_ : EventTime
deriving DecidableEq

/-- A fetched calendar event: the server-assigned event id together with the
body fields the reconciler looks at. -/
structure CalEvent where
  id : String
  body : Event
deriving DecidableEq

/-- One network mutation issued against the calendar: `events.update`,
`events.insert` or `events.delete`. -/
inductive Call where
  | update : String → Event → Call
  | insert : Event → Call
  | delete : String → Call
deriving DecidableEq

/-- JS truthiness of a possibly-undefined string: `undefined` and `""` are
falsy, every other string is truthy. -/
def jsTruthy : Option String → Bool
  | some s => !(s == "")
  | none => false

/-- JS `String.prototype.length`: the number of UTF-16 code units. -/
def jsLength (s : String) : Nat :=
  s.data.foldl (fun n c => n + (if c.toNat < 65536 then 1 else 2)) 0

/-- Embedding of `createEvent(page)` from the main script.  The source reads
the property `page.date.length`, which throws a `TypeError` when `page.date`
is `undefined`; that abort is modelled as `none`.  The summary is built from
JS-truthy `name`/`course`, then prefixed with the done glyph (`U+2705`) when
`status == "Done"` and with the not-done glyph (`U+274C`) otherwise; a
10-code-unit date yields an all-day event, anything else a timed event, with
`start = end` in both cases and `description = page.id`. -/
def createEvent (page : Page) : Option Event :=
  match page.date with
  | none => none
  | some d =>
    let base :=
      if jsTruthy page.name then
        if jsTruthy page.course then
          "[" ++ page.course.getD "" ++ "] " ++ page.name.getD ""
        else
          page.name.getD ""
      else ""
    let summary := if page.status = some "Done" then "✅ " ++ base else "❌ " ++ base
    if jsLength d = 10 then
      some { summary := summary, description := page.id,
             start := { date := some d, dateTime := none },
             end_ := { date := some d, dateTime := none } }
    else
      some { summary := summary, description := page.id,
             start := { date := none, dateTime := some d },
             end_ := { date := none, dateTime := some d } }

/-- One rich-text item of a Notion title property. -/
structure TitleItem where
  plain_text : String
deriving DecidableEq

/-- The `title` array of a Notion title property. -/
structure TitleProp where
  title : List TitleItem
deriving DecidableEq

/-- The value object of a Notion select property. -/
structure SelectName where
  name : String
deriving DecidableEq

/-- A Notion select property: `select` is `null` when the field is unset. -/
structure SelectProp where
  select : Option SelectName
deriving DecidableEq

/-- The value object of a Notion date property: a start and an optional end. -/
structure DateRange where
  start : Option String
  end_ : Option String
deriving DecidableEq

/-- A Notion date property: `date` is `null` when the field is unset. -/
structure DateProp where
  date : Option DateRange
deriving DecidableEq

/-- The four properties of an upstream page that `reducePage` reads. -/
structure RawProps where
  Name : TitleProp
  Course : SelectProp
  Date : DateProp
  Status : SelectProp
deriving DecidableEq

/-- An upstream page as fetched from the source store: an id plus the
properties object. -/
structure RawPage where
  id : String
  properties : RawProps
deriving DecidableEq

/-- Embedding of `reducePage(page)` from the main script: each optional field
is guarded by a JS truthiness test (`title[0]` is an object, truthy exactly
when present; `select` and `date` are object-or-null; `date.end` is a string,
so the guard `if (date.end)` is also false on `""`). -/
def reducePage (page : RawPage) : Page :=
  let name := match page.properties.Name.title.head? with
    | some item => some item.plain_text
    | none => none
  let course := match page.properties.Course.select with
    | some sel => some sel.name
    | none => none
  let date := match page.properties.Date.date with
    | some dr => if jsTruthy dr.end_ then dr.end_ else dr.start
    | none => none
  let status := match page.properties.Status.select with
    | some sel => some sel.name
    | none => none
  { id := page.id, name := name, course := course, date := date, status := status }

/-- Numeric value of a decimal digit character. -/
def digitVal (c : Char) : Option Nat :=
  if c.isDigit then some (c.toNat - 48) else none

/-- Parse exactly `n` decimal digits into a number, returning the rest. -/
def parseFixedNatAux : Nat → Nat → List Char → Option (Nat × List Char)
  | 0, acc, cs => some (acc, cs)
  | _ + 1, _, [] => none
  | n + 1, acc, c :: cs =>
    match digitVal c with
    | some d => parseFixedNatAux n (acc * 10 + d) cs
    | none => none

/-- Parse exactly `n` decimal digits. -/
def parseFixedNat (n : Nat) (cs : List Char) : Option (Nat × List Char) :=
  parseFixedNatAux n 0 cs

/-- Consume one expected character. -/
def expectChar (c : Char) : List Char → Option (List Char)
  | x :: xs => if x == c then some xs else none
  | [] => none

/-- Gregorian leap year. -/
def isLeapYear (y : Nat) : Bool :=
  (y % 4 == 0 && y % 100 != 0) || y % 400 == 0

/-- Number of days in a month. -/
def daysInMonth (y m : Nat) : Nat :=
  if m == 2 then (if isLeapYear y then 29 else 28)
  else if m == 4 || m == 6 || m == 9 || m == 11 then 30
  else 31

/-- Days from the Unix epoch to a civil date (proleptic Gregorian). -/
def daysFromCivil (y m d : Int) : Int :=
  let y2 := if m ≤ 2 then y - 1 else y
  let era := (if 0 ≤ y2 then y2 else y2 - 399) / 400
  let yoe := y2 - era * 400
  let mp := (m + 9) % 12
  let doy := (153 * mp + 2) / 5 + d - 1
  let doe := yoe * 365 + yoe / 4 - yoe / 100 + doy
  era * 146097 + doe - 719468

/-- Parse a `YYYY-MM-DD` prefix into days since the epoch. -/
def parseYMD (cs : List Char) : Option (Int × List Char) := do
  let (y, r1) ← parseFixedNat 4 cs
  let r2 ← expectChar '-' r1
  let (m, r3) ← parseFixedNat 2 r2
  let r4 ← expectChar '-' r3
  let (d, r5) ← parseFixedNat 2 r4
  if 1 ≤ m ∧ m ≤ 12 ∧ 1 ≤ d ∧ d ≤ daysInMonth y m then
    pure (daysFromCivil (Int.ofNat y) (Int.ofNat m) (Int.ofNat d), r5)
  else none

/-- Parse an optional `.sss` millisecond fraction. -/
def parseMillis (cs : List Char) : Option (Nat × List Char) :=
  match cs with
  | '.' :: rest =>
    match parseFixedNat 3 rest with
    | some (ms, r) => some (ms, r)
    | none => none
  | _ => some (0, cs)

/-- Parse a `±HH:MM` timezone offset (minutes), requiring end of input. -/
def parseZoneHM (cs : List Char) : Option Int := do
  let (h, r1) ← parseFixedNat 2 cs
  let r2 ← expectChar ':' r1
  let (m, r3) ← parseFixedNat 2 r2
  if r3 = [] ∧ h ≤ 23 ∧ m ≤ 59 then pure (Int.ofNat (h * 60 + m)) else none

/-- Parse the timezone designator.  An absent designator means local time;
the execution environment's timezone is modelled as UTC. -/
def parseZone : List Char → Option Int
  | [] => some 0
  | ['Z'] => some 0
  | '+' :: rest => parseZoneHM rest
  | '-' :: rest => (parseZoneHM rest).map Int.neg
  | _ => none

/-- Parse the time-of-day part `HH:MM[:SS[.sss]]` plus timezone designator,
returning milliseconds relative to midnight UTC. -/
def parseTimeAndZone (cs : List Char) : Option Int := do
  let (h, r1) ← parseFixedNat 2 cs
  let r2 ← expectChar ':' r1
  let (mi, r3) ← parseFixedNat 2 r2
  if h ≤ 23 ∧ mi ≤ 59 then
    match r3 with
    | ':' :: r4 => do
      let (s, r5) ← parseFixedNat 2 r4
      let (ms, r6) ← parseMillis r5
      let off ← parseZone r6
      if s ≤ 59 then
        pure ((Int.ofNat h) * 3600000 + (Int.ofNat mi) * 60000 + (Int.ofNat s) * 1000
              + Int.ofNat ms - off * 60000)
      else none
    | rest => do
      let off ← parseZone rest
      pure ((Int.ofNat h) * 3600000 + (Int.ofNat mi) * 60000 - off * 60000)
  else none

/-- Parse an ISO-8601 date or date-time string to milliseconds since the
Unix epoch, the format accepted by `Date.parse`. -/
def parseISO (s : String) : Option Int := do
  let (days, rest) ← parseYMD s.data
  match rest with
  | [] => pure (days * 86400000)
  | 'T' :: tcs => do
    let tms ← parseTimeAndZone tcs
    pure (days * 86400000 + tms)
  | _ => none

/-- Model of `Date.parse` applied to a possibly-undefined string: `none`
stands for `NaN`.  `Date.parse(undefined)` coerces `undefined` to the string
`"undefined"`, which does not parse, so the result is `NaN`. -/
def dateParse : Option String → Option Int
  | none => none
  | some s => parseISO s

/-- JS `==` on two `Date.parse` results: if either side is `NaN` the
comparison is `false` (in particular `NaN == NaN` is `false`). -/
def jsEqNum : Option Int → Option Int → Bool
  | some a, some b => a == b
  | _, _ => false

/-- JS `==` on two possibly-undefined strings: `undefined == undefined` is
`true`, `undefined` never equals a string. -/
def jsEqOptStr : Option String → Option String → Bool
  | some a, some b => a == b
  | none, none => true
  | _, _ => false

/-- Embedding of `eventsEqual(e1, e2)` from the main script: conjunction of
summary equality, description equality, and start/end comparisons where the
all-day `date` strings are compared directly and the timed `dateTime` strings
are compared after `Date.parse`. -/
def eventsEqual (e1 e2 : Event) : Bool :=
  e1.summary == e2.summary
  && e1.description == e2.description
  && jsEqOptStr e1.start.date e2.start.date
  && jsEqNum (dateParse e1.start.dateTime) (dateParse e2.start.dateTime)
  && jsEqOptStr e1.end_.date e2.end_.date
  && jsEqNum (dateParse e1.end_.dateTime) (dateParse e2.end_.dateTime)

/-- The JS `Map` of reduced pages keyed by page id, as built by `getPages`:
modelled as an association list (unique keys, insertion order). -/
abbrev PageMap := List (String × Page)

/-- `pages.get(k)` — also the model of `pages.has(k)`, which agrees with
`get` returning a value since map values here are never `undefined`. -/
def mapGet (k : String) (m : PageMap) : Option Page :=
  (m.find? (fun kp => kp.1 == k)).map Prod.snd

/-- `pages.delete(k)`: removes the binding of key `k`. -/
def mapDelete (k : String) (m : PageMap) : PageMap :=
  m.filter (fun kp => !(kp.1 == k))

/-- Embedding of `syncGCal(pages)` over an already-fetched event list: for
each event, look up its description in the page map; delete the event when
absent, otherwise build the wanted event, update when `eventsEqual` fails,
and remove the page from the map.  Returns the issued calls and the leftover
map; `none` models a thrown `TypeError` aborting the pass (a matched page
with `undefined` date). -/
def syncGCal : List CalEvent → PageMap → Option (List Call × PageMap)
  | [], pages => some ([], pages)
  | e :: rest, pages =>
    match mapGet e.body.description pages with
    | none =>
      match syncGCal rest pages with
      | some (cs, ps) => some (Call.delete e.id :: cs, ps)
      | none => none
    | some page =>
      match createEvent page with
      | none => none
      | some updatedEvent =>
        match syncGCal rest (mapDelete e.body.description pages) with
        | some (cs, ps) =>
          some ((if eventsEqual e.body updatedEvent then [] else [Call.update e.id updatedEvent]) ++ cs, ps)
        | none => none

/-- Embedding of `syncNotion(pages)`: insert a freshly built event for every
page left in the map. -/
def syncNotion : PageMap → Option (List Call)
  | [] => some []
  | kp :: rest =>
    match createEvent kp.2 with
    | none => none
    | some ev =>
      match syncNotion rest with
      | some cs => some (Call.insert ev :: cs)
      | none => none

/-- Embedding of one `sync()` pass over already-fetched inputs: `syncGCal`
then `syncNotion`, returning every mutation issued, or `none` when the pass
aborts with an error. -/
def sync (records : PageMap) (events : List CalEvent) : Option (List Call) :=
  match syncGCal events records with
  | none => none
  | some (cs, remaining) =>
    match syncNotion remaining with
    | none => none
    | some cs2 => some (cs ++ cs2)

/-- The round-trip record of the specification's test vector. -/
def c3page : Page :=
  { id := "abc", name := some "HW1", course := some "CS101",
    date := some "2024-03-01", status := some "Done" }

/-- An all-day event with matching title, description and date on both
sides of the comparison. -/
def c1event : Event :=
  { summary := "✅ [CS101] HW1", description := "abc",
    start := { date := some "2024-03-01", dateTime := none },
    end_ := { date := some "2024-03-01", dateTime := none } }

/-- The fetched record map for the idempotence scenario: one record with an
all-day date. -/
def c2records : PageMap :=
  [("abc", { id := "abc", name := some "HW1", course := some "CS101",
             date := some "2024-03-01", status := some "Done" })]

/-- The event body the first pass inserts for that record. -/
def c2body : Event :=
  { summary := "✅ [CS101] HW1", description := "abc",
    start := { date := some "2024-03-01", dateTime := none },
    end_ := { date := some "2024-03-01", dateTime := none } }

/-- The calendar contents after the first pass: the inserted event, stored
under the server-assigned id. -/
def c2store : List CalEvent := [{ id := "g1", body := c2body }]

/-- A record with a set-but-empty name and a set course: JS truthiness makes
`if (page.name)` false on `""`, so the course is dropped from the title. -/
def c6page : Page :=
  { id := "p6", name := some "", course := some "CS101",
    date := some "2024-03-01", status := none }

/-- A record exercising the ordinary title path of the amended C6 claim. -/
def c6wpage : Page :=
  { id := "p6w", name := some "HW2", course := some "CS2",
    date := some "2024-03-05", status := none }

/-- A record with an all-day (10 code unit) date. -/
def c5allday : Page :=
  { id := "p5a", name := some "A", course := none,
    date := some "2024-03-01", status := none }

/-- A record with a timed (non-10-code-unit) date. -/
def c5timed : Page :=
  { id := "p5t", name := some "B", course := none,
    date := some "2024-03-01T10:00:00.000-05:00", status := none }

/-- An upstream page whose Date property has both a start and an end, the
end being the empty string: the truthy guard `if (date.end)` fails on `""`,
so the start is used. -/
def c8page : RawPage :=
  { id := "p8",
    properties :=
      { Name := { title := [] }, Course := { select := none },
        Date := { date := some { start := some "2024-03-01", end_ := some "" } },
        Status := { select := none } } }

/-- An upstream page with both a start and a nonempty end. -/
def c8wpage : RawPage :=
  { id := "p8w",
    properties :=
      { Name := { title := [{ plain_text := "T" }] }, Course := { select := none },
        Date := { date := some { start := some "2024-05-01", end_ := some "2024-05-02" } },
        Status := { select := none } } }

/-- An upstream page with every optional field missing. -/
def c9page : RawPage :=
  { id := "p9",
    properties :=
      { Name := { title := [] }, Course := { select := none },
        Date := { date := none }, Status := { select := none } } }

/-- Whether a call references a given fetched event or its linked id: an
update referencing the event id or carrying its description, or an insert
carrying its description. -/
def refsOrphan (e : CalEvent) : Call → Bool
  | Call.update i b => i == e.id || b.description == e.body.description
  | Call.insert b => b.description == e.body.description
  | Call.delete _ => false

/-- Whether a call is an insert whose body carries the given description. -/
def insertFor (d : String) : Call → Bool
  | Call.insert b => b.description == d
  | _ => false

/-- The single record of the orphan-deletion scenario. -/
def c4page : Page :=
  { id := "r4", name := some "T4", course := none,
    date := some "2024-03-02", status := none }

/-- The fetched record map of the orphan-deletion scenario. -/
def c4records : PageMap := [("r4", c4page)]

/-- A fetched event whose description matches no record. -/
def c4orphan : CalEvent :=
  { id := "g4",
    body := { summary := "junk", description := "zz",
              start := { date := some "2024-01-01", dateTime := none },
              end_ := { date := some "2024-01-01", dateTime := none } } }

/-- The fetched event list of the orphan-deletion scenario. -/
def c4events : List CalEvent := [c4orphan]

/-- The event the creation phase inserts for the unmatched record. -/
def c4built : Event :=
  { summary := "❌ T4", description := "r4",
    start := { date := some "2024-03-02", dateTime := none },
    end_ := { date := some "2024-03-02", dateTime := none } }

/-- The single record of the matched-event scenario. -/
def c7page : Page :=
  { id := "k7", name := some "T7", course := none,
    date := some "2024-03-03", status := none }

/-- The fetched record map of the matched-event scenario. -/
def c7records : PageMap := [("k7", c7page)]

/-- A fetched event whose description matches the record key `k7` but whose
summary is stale. -/
def c7event : CalEvent :=
  { id := "g7",
    body := { summary := "stale", description := "k7",
              start := { date := some "2024-03-03", dateTime := none },
              end_ := { date := some "2024-03-03", dateTime := none } } }

/-- The fetched event list of the matched-event scenario. -/
def c7events : List CalEvent := [c7event]

/-- The freshly built event for the matched record. -/
def c7built : Event :=
  { summary := "❌ T7", description := "k7",
    start := { date := some "2024-03-03", dateTime := none },
    end_ := { date := some "2024-03-03", dateTime := none } }

/-- The single record of the duplicate-events scenario. -/
def c10page : Page :=
  { id := "k10", name := some "T10", course := none,
    date := some "2024-03-04", status := none }

/-- The fetched record map of the duplicate-events scenario. -/
def c10records : PageMap := [("k10", c10page)]

/-- The shared body of the two duplicate events. -/
def c10body : Event :=
  { summary := "old", description := "k10",
    start := { date := some "2024-03-04", dateTime := none },
    end_ := { date := some "2024-03-04", dateTime := none } }

/-- The first (kept) duplicate. -/
def c10e1 : CalEvent := { id := "gA", body := c10body }

/-- The second (deleted) duplicate. -/
def c10e2 : CalEvent := { id := "gB", body := c10body }

/-- The freshly built event for the record of the duplicate scenario. -/
def c10built : Event :=
  { summary := "❌ T10", description := "k10",
    start := { date := some "2024-03-04", dateTime := none },
    end_ := { date := some "2024-03-04", dateTime := none } }

/-- C1: claimed — `eventsEqual` returns true for two all-day events with
identical title, description and date.  In the source the comparison also
requires `Date.parse(e1.start.dateTime) == Date.parse(e2.start.dateTime)`;
for all-day events both `dateTime`s are `undefined`, `Date.parse(undefined)`
is `NaN`, and `NaN == NaN` is `false`, so the predicate is `false` even for
an all-day event compared with itself. -/
theorem eventsEqual_same_allday_false : eventsEqual c1event c1event = false := by
  decide

/-- C2: claimed — a second `sync()` run immediately after a completed first
run issues zero calls.  On the concrete scenario of one all-day record: the
first run (empty calendar) issues exactly one insert; the second run, over
the unchanged record map and the calendar now holding exactly the inserted
event, issues an update call, because `eventsEqual` is `false` on all-day
events (`NaN == NaN`). -/
theorem sync_second_run_updates :
    sync c2records [] = some [Call.insert c2body]
    ∧ sync c2records c2store = some [Call.update "g1" c2body] := by
  constructor
  · decide
  · decide

/-- C3: the round-trip test vector — the record with id `abc`, name `HW1`,
course `CS101`, date `2024-03-01`, status `Done` yields exactly the event
with title `✅ [CS101] HW1`, description `abc`, and all-day start = end =
`2024-03-01`. -/
theorem createEvent_roundtrip :
    createEvent c3page =
      some { summary := "✅ [CS101] HW1", description := "abc",
             start := { date := some "2024-03-01", dateTime := none },
             end_ := { date := some "2024-03-01", dateTime := none } } := by
  decide

/-- C5: for every record whose date is set, the built event is all-day with
start = end = the date string when its JS length is exactly 10, and timed
with start = end = the timestamp otherwise. -/
theorem createEvent_date_shape (page : Page) (d : String) (hd : page.date = some d) :
    (createEvent page).map Event.start =
      some (if jsLength d = 10 then EventTime.mk (some d) none
            else EventTime.mk none (some d))
    ∧ (createEvent page).map Event.end_ =
      some (if jsLength d = 10 then EventTime.mk (some d) none
            else EventTime.mk none (some d)) := by
  simp only [createEvent, hd]
  split <;> simp_all

/-- Witness for C5 at one all-day and one timed record. -/
theorem createEvent_date_shape_witness :
    ((createEvent c5allday).map Event.start =
      some (if jsLength "2024-03-01" = 10 then EventTime.mk (some "2024-03-01") none
            else EventTime.mk none (some "2024-03-01"))
     ∧ (createEvent c5allday).map Event.end_ =
      some (if jsLength "2024-03-01" = 10 then EventTime.mk (some "2024-03-01") none
            else EventTime.mk none (some "2024-03-01")))
    ∧ ((createEvent c5timed).map Event.start =
      some (if jsLength "2024-03-01T10:00:00.000-05:00" = 10 then
              EventTime.mk (some "2024-03-01T10:00:00.000-05:00") none
            else EventTime.mk none (some "2024-03-01T10:00:00.000-05:00"))
     ∧ (createEvent c5timed).map Event.end_ =
      some (if jsLength "2024-03-01T10:00:00.000-05:00" = 10 then
              EventTime.mk (some "2024-03-01T10:00:00.000-05:00") none
            else EventTime.mk none (some "2024-03-01T10:00:00.000-05:00"))) :=
  ⟨createEvent_date_shape c5allday "2024-03-01" rfl,
   createEvent_date_shape c5timed "2024-03-01T10:00:00.000-05:00" rfl⟩

/-- C6 counterexample: the claim as stated fails on a record whose name is
the empty string with a course set.  The claim requires the base title
`[<course>] <name>` (here `[CS101] `, so summary `❌ [CS101] `) whenever
both fields are set, but the source guards with JS truthiness, so the empty
name drops the course and the summary is `❌ `. -/
theorem createEvent_title_counterexample :
    (createEvent c6page).map Event.summary = some "❌ "
    ∧ ("❌ " : String) ≠ "❌ [CS101] " := by
  decide

/-- C6 (amended): for every record with a set date, the summary is the done
glyph prefix exactly when status is `Done` (not-done glyph for every other
status including unset), followed by the base title, which is empty when the
name is unset or empty, the name when the course is unset or empty, and
`[<course>] <name>` when both are nonempty. -/
theorem createEvent_title_marker (page : Page) (d : String) (hd : page.date = some d) :
    (createEvent page).map Event.summary =
      some ((if page.status = some "Done" then "✅ " else "❌ ") ++
        (if page.name.getD "" = "" then ""
         else if page.course.getD "" = "" then page.name.getD ""
         else "[" ++ page.course.getD "" ++ "] " ++ page.name.getD "")) := by
  rcases page with ⟨pid, pname, pcourse, pdate, pstatus⟩
  simp only at hd
  subst hd
  simp only [createEvent]
  split <;>
  · rcases pname with _ | n
    · simp [jsTruthy]
    · rcases pcourse with _ | c
      · by_cases hn : n = "" <;> simp [jsTruthy, hn] <;> (try (split <;> rfl))
      · by_cases hn : n = "" <;> by_cases hc : c = "" <;> simp [jsTruthy, hn, hc] <;>
          (try (split <;> rfl))

/-- Witness for the amended C6 at a record with nonempty name and course. -/
theorem createEvent_title_marker_witness :
    (createEvent c6wpage).map Event.summary =
      some ((if c6wpage.status = some "Done" then "✅ " else "❌ ") ++
        (if c6wpage.name.getD "" = "" then ""
         else if c6wpage.course.getD "" = "" then c6wpage.name.getD ""
         else "[" ++ c6wpage.course.getD "" ++ "] " ++ c6wpage.name.getD "")) :=
  createEvent_title_marker c6wpage "2024-03-05" rfl

/-- C8 counterexample: the claim as stated fails on a page whose Date
property has both a start and an end, the end being the empty string: the
claim requires the effective date to be the end value `""`, but the source's
truthy guard `if (date.end)` fails on `""` and the start is used. -/
theorem reducePage_end_empty_counterexample :
    c8page.properties.Date.date = some { start := some "2024-03-01", end_ := some "" }
    ∧ (reducePage c8page).date = some "2024-03-01"
    ∧ (some "2024-03-01" : Option String) ≠ some "" := by
  decide

/-- C8 (amended): for every upstream page whose Date property is present,
the effective date is the end value when the end is present and nonempty,
and the start value when the end is absent or empty. -/
theorem reducePage_effective_date (page : RawPage) (dr : DateRange)
    (hd : page.properties.Date.date = some dr) :
    (reducePage page).date = (if dr.end_.getD "" = "" then dr.start else dr.end_) := by
  simp only [reducePage, hd]
  rcases dr with ⟨s, e⟩
  rcases e with _ | e2
  · simp [jsTruthy]
  · by_cases he : e2 = "" <;> simp [jsTruthy, he]

/-- Witness for the amended C8 at a page with a nonempty end. -/
theorem reducePage_effective_date_witness :
    (reducePage c8wpage).date =
      (if (Option.getD (some "2024-05-02") "") = "" then some "2024-05-01"
       else some "2024-05-02") :=
  reducePage_effective_date c8wpage
    { start := some "2024-05-01", end_ := some "2024-05-02" } rfl

/-- C9: `reducePage` is total — it cannot fail on a page with missing
optional fields — and a missing title entry, course select, date, or status
select leaves the corresponding record field unset (`none`) while the id is
always carried over. -/
theorem reducePage_missing_optional (page : RawPage) :
    (reducePage page).id = page.id
    ∧ ((reducePage page).name = none ∨ page.properties.Name.title.isEmpty = false)
    ∧ ((reducePage page).course = none ∨ page.properties.Course.select.isSome = true)
    ∧ ((reducePage page).date = none ∨ page.properties.Date.date.isSome = true)
    ∧ ((reducePage page).status = none ∨ page.properties.Status.select.isSome = true) := by
  rcases page with ⟨pid, ⟨⟨tl⟩, ⟨csel⟩, ⟨dd⟩, ⟨ssel⟩⟩⟩
  refine ⟨rfl, ?_, ?_, ?_, ?_⟩
  · rcases tl with _ | ⟨t, ts⟩ <;> simp [reducePage]
  · rcases csel with _ | c <;> simp [reducePage]
  · rcases dd with _ | d <;> simp [reducePage]
  · rcases ssel with _ | s <;> simp [reducePage]

/-- Witness for C9 at a page with every optional field missing. -/
theorem reducePage_missing_optional_witness :
    (reducePage c9page).id = c9page.id
    ∧ ((reducePage c9page).name = none ∨ c9page.properties.Name.title.isEmpty = false)
    ∧ ((reducePage c9page).course = none ∨ c9page.properties.Course.select.isSome = true)
    ∧ ((reducePage c9page).date = none ∨ c9page.properties.Date.date.isSome = true)
    ∧ ((reducePage c9page).status = none ∨ c9page.properties.Status.select.isSome = true) :=
  reducePage_missing_optional c9page

theorem mapGet_cons (k : String) (kp : String × Page) (rest : PageMap) :
    mapGet k (kp :: rest) = if kp.1 = k then some kp.2 else mapGet k rest := by
  by_cases h : kp.1 = k
  · simp [mapGet, List.find?_cons_of_pos, h]
  · simp [mapGet, List.find?_cons_of_neg, h]

theorem mapDelete_cons (k : String) (kp : String × Page) (rest : PageMap) :
    mapDelete k (kp :: rest) =
      if kp.1 = k then mapDelete k rest else kp :: mapDelete k rest := by
  by_cases h : kp.1 = k <;> simp [mapDelete, List.filter_cons, h]

theorem mapGet_mapDelete_self (k : String) (m : PageMap) :
    mapGet k (mapDelete k m) = none := by
  induction m with
  | nil => rfl
  | cons kp rest ih =>
    rw [mapDelete_cons]
    by_cases h : kp.1 = k
    · rw [if_pos h]; exact ih
    · rw [if_neg h, mapGet_cons, if_neg h]; exact ih

theorem mapGet_mapDelete_ne (k k2 : String) (m : PageMap) (hne : k2 ≠ k) :
    mapGet k (mapDelete k2 m) = mapGet k m := by
  induction m with
  | nil => rfl
  | cons kp rest ih =>
    rw [mapDelete_cons, mapGet_cons]
    by_cases h : kp.1 = k2
    · rw [if_pos h, ih, if_neg (by rw [h]; exact hne)]
    · rw [if_neg h, mapGet_cons]
      by_cases h2 : kp.1 = k
      · rw [if_pos h2, if_pos h2]
      · rw [if_neg h2, if_neg h2]; exact ih

theorem mapGet_mem (k : String) (m : PageMap) (p : Page) (h : mapGet k m = some p) :
    (k, p) ∈ m := by
  induction m with
  | nil => simp [mapGet] at h
  | cons kp rest ih =>
    rw [mapGet_cons] at h
    by_cases hk : kp.1 = k
    · rw [if_pos hk, Option.some.injEq] at h
      have hkp : kp = (k, p) := by
        rcases kp with ⟨a, b⟩
        simp only at hk h
        rw [hk, h]
      rw [← hkp]
      exact List.mem_cons_self kp rest
    · rw [if_neg hk] at h
      exact List.mem_cons_of_mem _ (ih h)

theorem mapGet_eq_none_iff (k : String) (m : PageMap) :
    mapGet k m = none ↔ ∀ kp ∈ m, kp.1 ≠ k := by
  simp only [mapGet, Option.map_eq_none', List.find?_eq_none]
  constructor <;> intro h kp hm <;> simpa using h kp hm

theorem mapDelete_sublist (k : String) (m : PageMap) :
    (mapDelete k m).Sublist m :=
  List.filter_sublist m

theorem createEvent_description (p : Page) (ev : Event)
    (h : createEvent p = some ev) : ev.description = p.id := by
  rcases hd : p.date with _ | d
  · simp [createEvent, hd] at h
  · simp only [createEvent, hd] at h
    by_cases hl : jsLength d = 10
    · rw [if_pos hl, Option.some.injEq] at h
      rw [← h]
    · rw [if_neg hl, Option.some.injEq] at h
      rw [← h]

theorem syncGCal_nil (pages : PageMap) : syncGCal [] pages = some ([], pages) := rfl

theorem syncGCal_cons_not_found (e : CalEvent) (rest : List CalEvent) (pages : PageMap)
    (hg : mapGet e.body.description pages = none) :
    syncGCal (e :: rest) pages =
      (syncGCal rest pages).map (fun r => (Call.delete e.id :: r.1, r.2)) := by
  simp only [syncGCal, hg]
  cases syncGCal rest pages with
  | none => rfl
  | some pr => rcases pr with ⟨cs, ps⟩; rfl

theorem syncGCal_cons_found (e : CalEvent) (rest : List CalEvent) (pages : PageMap)
    (page : Page) (ev : Event)
    (hg : mapGet e.body.description pages = some page)
    (hce : createEvent page = some ev) :
    syncGCal (e :: rest) pages =
      (syncGCal rest (mapDelete e.body.description pages)).map
        (fun r => ((if eventsEqual e.body ev then [] else [Call.update e.id ev]) ++ r.1, r.2)) := by
  simp only [syncGCal, hg, hce]
  cases syncGCal rest (mapDelete e.body.description pages) with
  | none => rfl
  | some pr => rcases pr with ⟨cs, ps⟩; rfl

theorem syncGCal_cons_abort (e : CalEvent) (rest : List CalEvent) (pages : PageMap)
    (page : Page)
    (hg : mapGet e.body.description pages = some page)
    (hce : createEvent page = none) :
    syncGCal (e :: rest) pages = none := by
  simp only [syncGCal, hg, hce]

theorem syncNotion_cons (kp : String × Page) (rest : PageMap) (ev : Event)
    (hce : createEvent kp.2 = some ev) :
    syncNotion (kp :: rest) = (syncNotion rest).map (fun cs => Call.insert ev :: cs) := by
  simp only [syncNotion, hce]
  cases syncNotion rest with
  | none => rfl
  | some cs => rfl

theorem syncNotion_cons_abort (kp : String × Page) (rest : PageMap)
    (hce : createEvent kp.2 = none) :
    syncNotion (kp :: rest) = none := by
  simp only [syncNotion, hce]

theorem sync_inv (records : PageMap) (events : List CalEvent) (calls : List Call)
    (h : sync records events = some calls) :
    ∃ cs rem cs2, syncGCal events records = some (cs, rem)
      ∧ syncNotion rem = some cs2 ∧ calls = cs ++ cs2 := by
  simp only [sync] at h
  cases hg : syncGCal events records with
  | none => rw [hg] at h; cases h
  | some pr =>
    rcases pr with ⟨cs, rem⟩
    simp only [hg] at h
    cases hn : syncNotion rem with
    | none => rw [hn] at h; cases h
    | some cs2 =>
      simp only [hn] at h
      exact ⟨cs, rem, cs2, rfl, hn, (Option.some.inj h).symm⟩

theorem mem_update_ite (b : Bool) (i : String) (ev : Event) (c : Call)
    (hc : c ∈ (if b then ([] : List Call) else [Call.update i ev])) :
    c = Call.update i ev := by
  cases b
  · simpa using hc
  · simp at hc

theorem syncGCal_get_none (k : String) (events : List CalEvent) :
    ∀ (pages : PageMap) (cs : List Call) (ps : PageMap),
      syncGCal events pages = some (cs, ps) → mapGet k pages = none → mapGet k ps = none := by
  induction events with
  | nil =>
    intro pages cs ps h hk
    rw [syncGCal_nil] at h
    simp only [Option.some.injEq, Prod.mk.injEq] at h
    rw [← h.2]
    exact hk
  | cons e rest ih =>
    intro pages cs ps h hk
    cases hg : mapGet e.body.description pages with
    | none =>
      rw [syncGCal_cons_not_found e rest pages hg] at h
      cases hrec : syncGCal rest pages with
      | none => rw [hrec] at h; cases h
      | some pr =>
        rcases pr with ⟨cs1, ps1⟩
        rw [hrec] at h
        simp only [Option.map_some', Option.some.injEq, Prod.mk.injEq] at h
        rw [← h.2]
        exact ih pages cs1 ps1 hrec hk
    | some page =>
      cases hce : createEvent page with
      | none => rw [syncGCal_cons_abort e rest pages page hg hce] at h; cases h
      | some ev =>
        rw [syncGCal_cons_found e rest pages page ev hg hce] at h
        cases hrec : syncGCal rest (mapDelete e.body.description pages) with
        | none => rw [hrec] at h; cases h
        | some pr =>
          rcases pr with ⟨cs1, ps1⟩
          rw [hrec] at h
          simp only [Option.map_some', Option.some.injEq, Prod.mk.injEq] at h
          rw [← h.2]
          by_cases hk2 : e.body.description = k
          · subst hk2
            exact ih _ cs1 ps1 hrec (mapGet_mapDelete_self _ _)
          · refine ih _ cs1 ps1 hrec ?_
            rw [mapGet_mapDelete_ne k e.body.description pages hk2]
            exact hk

theorem syncGCal_sublist (events : List CalEvent) :
    ∀ (pages : PageMap) (cs : List Call) (ps : PageMap),
      syncGCal events pages = some (cs, ps) → ps.Sublist pages := by
  induction events with
  | nil =>
    intro pages cs ps h
    rw [syncGCal_nil] at h
    simp only [Option.some.injEq, Prod.mk.injEq] at h
    rw [← h.2]
  | cons e rest ih =>
    intro pages cs ps h
    cases hg : mapGet e.body.description pages with
    | none =>
      rw [syncGCal_cons_not_found e rest pages hg] at h
      cases hrec : syncGCal rest pages with
      | none => rw [hrec] at h; cases h
      | some pr =>
        rcases pr with ⟨cs1, ps1⟩
        rw [hrec] at h
        simp only [Option.map_some', Option.some.injEq, Prod.mk.injEq] at h
        rw [← h.2]
        exact ih pages cs1 ps1 hrec
    | some page =>
      cases hce : createEvent page with
      | none => rw [syncGCal_cons_abort e rest pages page hg hce] at h; cases h
      | some ev =>
        rw [syncGCal_cons_found e rest pages page ev hg hce] at h
        cases hrec : syncGCal rest (mapDelete e.body.description pages) with
        | none => rw [hrec] at h; cases h
        | some pr =>
          rcases pr with ⟨cs1, ps1⟩
          rw [hrec] at h
          simp only [Option.map_some', Option.some.injEq, Prod.mk.injEq] at h
          rw [← h.2]
          exact (ih _ cs1 ps1 hrec).trans (mapDelete_sublist _ _)

theorem syncGCal_delete_mem (events : List CalEvent) :
    ∀ (pages : PageMap) (cs : List Call) (ps : PageMap) (x : String),
      syncGCal events pages = some (cs, ps) → Call.delete x ∈ cs →
        x ∈ events.map CalEvent.id := by
  induction events with
  | nil =>
    intro pages cs ps x h hx
    rw [syncGCal_nil] at h
    simp only [Option.some.injEq, Prod.mk.injEq] at h
    rw [← h.1] at hx
    cases hx
  | cons e rest ih =>
    intro pages cs ps x h hx
    simp only [List.map_cons, List.mem_cons]
    cases hg : mapGet e.body.description pages with
    | none =>
      rw [syncGCal_cons_not_found e rest pages hg] at h
      cases hrec : syncGCal rest pages with
      | none => rw [hrec] at h; cases h
      | some pr =>
        rcases pr with ⟨cs1, ps1⟩
        rw [hrec] at h
        simp only [Option.map_some', Option.some.injEq, Prod.mk.injEq] at h
        rw [← h.1] at hx
        rcases List.mem_cons.mp hx with h1 | h1
        · left
          cases h1
          rfl
        · right
          exact ih pages cs1 ps1 x hrec h1
    | some page =>
      cases hce : createEvent page with
      | none => rw [syncGCal_cons_abort e rest pages page hg hce] at h; cases h
      | some ev =>
        rw [syncGCal_cons_found e rest pages page ev hg hce] at h
        cases hrec : syncGCal rest (mapDelete e.body.description pages) with
        | none => rw [hrec] at h; cases h
        | some pr =>
          rcases pr with ⟨cs1, ps1⟩
          rw [hrec] at h
          simp only [Option.map_some', Option.some.injEq, Prod.mk.injEq] at h
          rw [← h.1] at hx
          rcases List.mem_append.mp hx with h1 | h1
          · cases mem_update_ite _ _ _ _ h1
          · right
            exact ih _ cs1 ps1 x hrec h1

theorem syncGCal_no_insert (events : List CalEvent) :
    ∀ (pages : PageMap) (cs : List Call) (ps : PageMap) (b : Event),
      syncGCal events pages = some (cs, ps) → Call.insert b ∉ cs := by
  induction events with
  | nil =>
    intro pages cs ps b h hx
    rw [syncGCal_nil] at h
    simp only [Option.some.injEq, Prod.mk.injEq] at h
    rw [← h.1] at hx
    cases hx
  | cons e rest ih =>
    intro pages cs ps b h hx
    cases hg : mapGet e.body.description pages with
    | none =>
      rw [syncGCal_cons_not_found e rest pages hg] at h
      cases hrec : syncGCal rest pages with
      | none => rw [hrec] at h; cases h
      | some pr =>
        rcases pr with ⟨cs1, ps1⟩
        rw [hrec] at h
        simp only [Option.map_some', Option.some.injEq, Prod.mk.injEq] at h
        rw [← h.1] at hx
        rcases List.mem_cons.mp hx with h1 | h1
        · cases h1
        · exact ih pages cs1 ps1 b hrec h1
    | some page =>
      cases hce : createEvent page with
      | none => rw [syncGCal_cons_abort e rest pages page hg hce] at h; cases h
      | some ev =>
        rw [syncGCal_cons_found e rest pages page ev hg hce] at h
        cases hrec : syncGCal rest (mapDelete e.body.description pages) with
        | none => rw [hrec] at h; cases h
        | some pr =>
          rcases pr with ⟨cs1, ps1⟩
          rw [hrec] at h
          simp only [Option.map_some', Option.some.injEq, Prod.mk.injEq] at h
          rw [← h.1] at hx
          rcases List.mem_append.mp hx with h1 | h1
          · cases mem_update_ite _ _ _ _ h1
          · exact ih _ cs1 ps1 b hrec h1

theorem syncGCal_update_src (events : List CalEvent) :
    ∀ (pages : PageMap) (cs : List Call) (ps : PageMap) (i : String) (b : Event),
      syncGCal events pages = some (cs, ps) → Call.update i b ∈ cs →
        ∃ f, f ∈ events ∧ i = f.id
          ∧ ∃ p, mapGet f.body.description pages = some p ∧ createEvent p = some b := by
  induction events with
  | nil =>
    intro pages cs ps i b h hx
    rw [syncGCal_nil] at h
    simp only [Option.some.injEq, Prod.mk.injEq] at h
    rw [← h.1] at hx
    cases hx
  | cons e rest ih =>
    intro pages cs ps i b h hx
    cases hg : mapGet e.body.description pages with
    | none =>
      rw [syncGCal_cons_not_found e rest pages hg] at h
      cases hrec : syncGCal rest pages with
      | none => rw [hrec] at h; cases h
      | some pr =>
        rcases pr with ⟨cs1, ps1⟩
        rw [hrec] at h
        simp only [Option.map_some', Option.some.injEq, Prod.mk.injEq] at h
        rw [← h.1] at hx
        rcases List.mem_cons.mp hx with h1 | h1
        · cases h1
        · obtain ⟨f, hf, hi, p, hp, hcp⟩ := ih pages cs1 ps1 i b hrec h1
          exact ⟨f, List.mem_cons_of_mem e hf, hi, p, hp, hcp⟩
    | some page =>
      cases hce : createEvent page with
      | none => rw [syncGCal_cons_abort e rest pages page hg hce] at h; cases h
      | some ev =>
        rw [syncGCal_cons_found e rest pages page ev hg hce] at h
        cases hrec : syncGCal rest (mapDelete e.body.description pages) with
        | none => rw [hrec] at h; cases h
        | some pr =>
          rcases pr with ⟨cs1, ps1⟩
          rw [hrec] at h
          simp only [Option.map_some', Option.some.injEq, Prod.mk.injEq] at h
          rw [← h.1] at hx
          rcases List.mem_append.mp hx with h1 | h1
          · have heq := mem_update_ite _ _ _ _ h1
            cases heq
            exact ⟨e, List.mem_cons_self e rest, rfl, page, hg, hce⟩
          · obtain ⟨f, hf, hi, p, hp, hcp⟩ := ih _ cs1 ps1 i b hrec h1
            have hfd : f.body.description ≠ e.body.description := by
              intro hEq
              rw [hEq, mapGet_mapDelete_self] at hp
              cases hp
            rw [mapGet_mapDelete_ne _ _ _ (fun hEq => hfd hEq.symm)] at hp
            exact ⟨f, List.mem_cons_of_mem e hf, hi, p, hp, hcp⟩

theorem syncGCal_orphan_mem (events : List CalEvent) :
    ∀ (pages : PageMap) (cs : List Call) (ps : PageMap) (e : CalEvent),
      syncGCal events pages = some (cs, ps) → e ∈ events →
      mapGet e.body.description pages = none → Call.delete e.id ∈ cs := by
  induction events with
  | nil =>
    intro pages cs ps e h he
    cases he
  | cons f rest ih =>
    intro pages cs ps e h he hk
    cases hg : mapGet f.body.description pages with
    | none =>
      rw [syncGCal_cons_not_found f rest pages hg] at h
      cases hrec : syncGCal rest pages with
      | none => rw [hrec] at h; cases h
      | some pr =>
        rcases pr with ⟨cs1, ps1⟩
        rw [hrec] at h
        simp only [Option.map_some', Option.some.injEq, Prod.mk.injEq] at h
        rw [← h.1]
        rcases List.mem_cons.mp he with he1 | he1
        · rw [he1]
          exact List.mem_cons_self _ _
        · exact List.mem_cons_of_mem _ (ih pages cs1 ps1 e hrec he1 hk)
    | some page =>
      cases hce : createEvent page with
      | none => rw [syncGCal_cons_abort f rest pages page hg hce] at h; cases h
      | some ev =>
        rw [syncGCal_cons_found f rest pages page ev hg hce] at h
        cases hrec : syncGCal rest (mapDelete f.body.description pages) with
        | none => rw [hrec] at h; cases h
        | some pr =>
          rcases pr with ⟨cs1, ps1⟩
          rw [hrec] at h
          simp only [Option.map_some', Option.some.injEq, Prod.mk.injEq] at h
          rw [← h.1]
          rcases List.mem_cons.mp he with he1 | he1
          · rw [he1] at hk
            rw [hk] at hg
            cases hg
          · have hfd : e.body.description ≠ f.body.description := by
              intro hEq
              rw [hEq, hg] at hk
              cases hk
            refine List.mem_append.mpr (Or.inr ?_)
            refine ih _ cs1 ps1 e hrec he1 ?_
            rw [mapGet_mapDelete_ne _ _ _ (fun hEq => hfd hEq.symm)]
            exact hk

theorem syncGCal_orphan_count (events : List CalEvent) :
    ∀ (pages : PageMap) (cs : List Call) (ps : PageMap) (e : CalEvent),
      syncGCal events pages = some (cs, ps) →
      (events.map CalEvent.id).Nodup → e ∈ events →
      mapGet e.body.description pages = none →
      cs.count (Call.delete e.id) = 1 := by
  induction events with
  | nil =>
    intro pages cs ps e h hnd he
    cases he
  | cons f rest ih =>
    intro pages cs ps e h hnd he hk
    have hnd2 : (rest.map CalEvent.id).Nodup := by
      simp only [List.map_cons, List.nodup_cons] at hnd
      exact hnd.2
    have hfid : f.id ∉ rest.map CalEvent.id := by
      simp only [List.map_cons, List.nodup_cons] at hnd
      exact hnd.1
    cases hg : mapGet f.body.description pages with
    | none =>
      rw [syncGCal_cons_not_found f rest pages hg] at h
      cases hrec : syncGCal rest pages with
      | none => rw [hrec] at h; cases h
      | some pr =>
        rcases pr with ⟨cs1, ps1⟩
        rw [hrec] at h
        simp only [Option.map_some', Option.some.injEq, Prod.mk.injEq] at h
        rw [← h.1]
        rcases List.mem_cons.mp he with he1 | he1
        · rw [he1]
          rw [List.count_cons]
          have hz : cs1.count (Call.delete f.id) = 0 := by
            rw [List.count_eq_zero]
            intro hmem
            exact hfid (syncGCal_delete_mem rest pages cs1 ps1 f.id hrec hmem)
          rw [hz]
          simp
        · have hne : f.id ≠ e.id := by
            intro hEq
            rw [hEq] at hfid
            exact hfid (List.mem_map.mpr ⟨e, he1, rfl⟩)
          rw [List.count_cons]
          have hbe : (Call.delete f.id == Call.delete e.id) = false := by
            rw [beq_eq_false_iff_ne]
            intro hEq
            injection hEq with h2
            exact hne h2
          rw [hbe]
          simp only [Bool.false_eq_true, if_false, Nat.add_zero]
          exact ih pages cs1 ps1 e hrec hnd2 he1 hk
    | some page =>
      cases hce : createEvent page with
      | none => rw [syncGCal_cons_abort f rest pages page hg hce] at h; cases h
      | some ev =>
        rw [syncGCal_cons_found f rest pages page ev hg hce] at h
        cases hrec : syncGCal rest (mapDelete f.body.description pages) with
        | none => rw [hrec] at h; cases h
        | some pr =>
          rcases pr with ⟨cs1, ps1⟩
          rw [hrec] at h
          simp only [Option.map_some', Option.some.injEq, Prod.mk.injEq] at h
          rw [← h.1]
          rcases List.mem_cons.mp he with he1 | he1
          · rw [he1] at hk
            rw [hk] at hg
            cases hg
          · have hfd : e.body.description ≠ f.body.description := by
              intro hEq
              rw [hEq, hg] at hk
              cases hk
            rw [List.count_append]
            have hup : (if eventsEqual f.body ev then ([] : List Call)
                else [Call.update f.id ev]).count (Call.delete e.id) = 0 := by
              rw [List.count_eq_zero]
              intro hmem
              cases mem_update_ite _ _ _ _ hmem
            rw [hup]
            have hk2 : mapGet e.body.description (mapDelete f.body.description pages) = none := by
              rw [mapGet_mapDelete_ne _ _ _ (fun hEq => hfd hEq.symm)]
              exact hk
            rw [ih _ cs1 ps1 e hrec hnd2 he1 hk2]

theorem syncGCal_mem_removed (events : List CalEvent) :
    ∀ (pages : PageMap) (cs : List Call) (ps : PageMap) (e : CalEvent),
      syncGCal events pages = some (cs, ps) → e ∈ events →
      mapGet e.body.description ps = none := by
  induction events with
  | nil =>
    intro pages cs ps e h he
    cases he
  | cons f rest ih =>
    intro pages cs ps e h he
    cases hg : mapGet f.body.description pages with
    | none =>
      rw [syncGCal_cons_not_found f rest pages hg] at h
      cases hrec : syncGCal rest pages with
      | none => rw [hrec] at h; cases h
      | some pr =>
        rcases pr with ⟨cs1, ps1⟩
        rw [hrec] at h
        simp only [Option.map_some', Option.some.injEq, Prod.mk.injEq] at h
        rw [← h.2]
        rcases List.mem_cons.mp he with he1 | he1
        · rw [he1]
          exact syncGCal_get_none f.body.description rest pages cs1 ps1 hrec hg
        · exact ih pages cs1 ps1 e hrec he1
    | some page =>
      cases hce : createEvent page with
      | none => rw [syncGCal_cons_abort f rest pages page hg hce] at h; cases h
      | some ev =>
        rw [syncGCal_cons_found f rest pages page ev hg hce] at h
        cases hrec : syncGCal rest (mapDelete f.body.description pages) with
        | none => rw [hrec] at h; cases h
        | some pr =>
          rcases pr with ⟨cs1, ps1⟩
          rw [hrec] at h
          simp only [Option.map_some', Option.some.injEq, Prod.mk.injEq] at h
          rw [← h.2]
          rcases List.mem_cons.mp he with he1 | he1
          · rw [he1]
            exact syncGCal_get_none f.body.description rest _ cs1 ps1 hrec
              (mapGet_mapDelete_self _ _)
          · exact ih _ cs1 ps1 e hrec he1

theorem syncNotion_calls (pages : PageMap) :
    ∀ (cs : List Call) (c : Call), syncNotion pages = some cs → c ∈ cs →
      ∃ kp, kp ∈ pages ∧ ∃ ev, createEvent kp.2 = some ev ∧ c = Call.insert ev := by
  induction pages with
  | nil =>
    intro cs c h hc
    have : ([] : List Call) = cs := Option.some.inj h
    rw [← this] at hc
    cases hc
  | cons kp rest ih =>
    intro cs c h hc
    cases hce : createEvent kp.2 with
    | none => rw [syncNotion_cons_abort kp rest hce] at h; cases h
    | some ev =>
      rw [syncNotion_cons kp rest ev hce] at h
      cases hrec : syncNotion rest with
      | none => rw [hrec] at h; cases h
      | some cs1 =>
        rw [hrec] at h
        simp only [Option.map_some', Option.some.injEq] at h
        rw [← h] at hc
        rcases List.mem_cons.mp hc with h1 | h1
        · exact ⟨kp, List.mem_cons_self kp rest, ev, hce, h1⟩
        · obtain ⟨kp2, hkp2, ev2, hev2, hc2⟩ := ih cs1 c hrec h1
          exact ⟨kp2, List.mem_cons_of_mem kp hkp2, ev2, hev2, hc2⟩

theorem contains_eq_false_of_not_mem (l : List Call) (a : Call) (h : a ∉ l) :
    l.contains a = false := by
  cases hc : l.contains a
  · rfl
  · exact absurd (List.elem_iff.mp hc) h

theorem contains_eq_true_of_mem (l : List Call) (a : Call) (h : a ∈ l) :
    l.contains a = true :=
  List.elem_iff.mpr h

theorem syncGCal_first_dup (e1 : CalEvent) (rest : List CalEvent) (pre : List CalEvent) :
    ∀ (pages : PageMap) (cs : List Call) (ps : PageMap),
      syncGCal (pre ++ e1 :: rest) pages = some (cs, ps) →
      ((pre ++ e1 :: rest).map CalEvent.id).Nodup →
      (∀ x ∈ pre, x.body.description ≠ e1.body.description) →
      mapGet e1.body.description pages ≠ none →
      (Call.delete e1.id ∉ cs
       ∧ ∀ e2 ∈ rest, e2.body.description = e1.body.description → Call.delete e2.id ∈ cs) := by
  induction pre with
  | nil =>
    intro pages cs ps h hnd hpre hk
    simp only [List.nil_append] at h hnd
    cases hg : mapGet e1.body.description pages with
    | none => exact absurd hg hk
    | some page =>
      cases hce : createEvent page with
      | none => rw [syncGCal_cons_abort e1 rest pages page hg hce] at h; cases h
      | some ev =>
        rw [syncGCal_cons_found e1 rest pages page ev hg hce] at h
        cases hrec : syncGCal rest (mapDelete e1.body.description pages) with
        | none => rw [hrec] at h; cases h
        | some pr =>
          rcases pr with ⟨cs1, ps1⟩
          rw [hrec] at h
          simp only [Option.map_some', Option.some.injEq, Prod.mk.injEq] at h
          obtain ⟨hcs, hps⟩ := h
          rw [← hcs]
          constructor
          · intro hmem
            rcases List.mem_append.mp hmem with h1 | h1
            · cases mem_update_ite _ _ _ _ h1
            · have hid := syncGCal_delete_mem rest _ cs1 ps1 e1.id hrec h1
              simp only [List.map_cons, List.nodup_cons] at hnd
              exact hnd.1 hid
          · intro e2 he2 hdesc
            refine List.mem_append.mpr (Or.inr ?_)
            refine syncGCal_orphan_mem rest _ cs1 ps1 e2 hrec he2 ?_
            rw [hdesc]
            exact mapGet_mapDelete_self _ _
  | cons f pre2 ih =>
    intro pages cs ps h hnd hpre hk
    simp only [List.cons_append] at h hnd
    have hfd : f.body.description ≠ e1.body.description :=
      hpre f (List.mem_cons_self f pre2)
    have nodtail : ((pre2 ++ e1 :: rest).map CalEvent.id).Nodup := by
      simp only [List.map_cons, List.nodup_cons] at hnd
      exact hnd.2
    have hpre2 : ∀ x ∈ pre2, x.body.description ≠ e1.body.description :=
      fun x hx => hpre x (List.mem_cons_of_mem f hx)
    have hfid : f.id ∉ (pre2 ++ e1 :: rest).map CalEvent.id := by
      simp only [List.map_cons, List.nodup_cons] at hnd
      exact hnd.1
    have he1id : e1.id ∈ (pre2 ++ e1 :: rest).map CalEvent.id :=
      List.mem_map.mpr ⟨e1, List.mem_append.mpr (Or.inr (List.mem_cons_self e1 rest)), rfl⟩
    cases hg : mapGet f.body.description pages with
    | none =>
      rw [syncGCal_cons_not_found f _ pages hg] at h
      cases hrec : syncGCal (pre2 ++ e1 :: rest) pages with
      | none => rw [hrec] at h; cases h
      | some pr =>
        rcases pr with ⟨cs1, ps1⟩
        rw [hrec] at h
        simp only [Option.map_some', Option.some.injEq, Prod.mk.injEq] at h
        obtain ⟨hcs, hps⟩ := h
        rw [← hcs]
        have hrec2 := ih pages cs1 ps1 hrec nodtail hpre2 hk
        constructor
        · intro hmem
          rcases List.mem_cons.mp hmem with h1 | h1
          · have hEq : e1.id = f.id := by injection h1
            rw [hEq] at he1id
            exact hfid he1id
          · exact hrec2.1 h1
        · intro e2 he2 hdesc
          exact List.mem_cons_of_mem _ (hrec2.2 e2 he2 hdesc)
    | some page =>
      cases hce : createEvent page with
      | none => rw [syncGCal_cons_abort f _ pages page hg hce] at h; cases h
      | some ev =>
        rw [syncGCal_cons_found f _ pages page ev hg hce] at h
        cases hrec : syncGCal (pre2 ++ e1 :: rest) (mapDelete f.body.description pages) with
        | none => rw [hrec] at h; cases h
        | some pr =>
          rcases pr with ⟨cs1, ps1⟩
          rw [hrec] at h
          simp only [Option.map_some', Option.some.injEq, Prod.mk.injEq] at h
          obtain ⟨hcs, hps⟩ := h
          rw [← hcs]
          have hk2 : mapGet e1.body.description (mapDelete f.body.description pages) ≠ none := by
            rw [mapGet_mapDelete_ne _ _ _ hfd]
            exact hk
          have hrec2 := ih _ cs1 ps1 hrec nodtail hpre2 hk2
          constructor
          · intro hmem
            rcases List.mem_append.mp hmem with h1 | h1
            · cases mem_update_ite _ _ _ _ h1
            · exact hrec2.1 h1
          · intro e2 he2 hdesc
            exact List.mem_append.mpr (Or.inr (hrec2.2 e2 he2 hdesc))

/-- C4: for every fetched target event whose description is not a key of the
fetched record map, a completed pass issues exactly one delete call for that
event, and no update or insert call references that event's id or that
description.  Hypotheses: the server-assigned event ids are distinct, and
the map binds each key to the record carrying that id (as `getPages` builds
it). -/
theorem sync_orphan_exactly_one_delete (records : PageMap) (events : List CalEvent)
    (e : CalEvent) (calls : List Call)
    (hnd : (events.map CalEvent.id).Nodup)
    (hid : ∀ kp ∈ records, (Prod.snd kp).id = Prod.fst kp)
    (he : e ∈ events)
    (ho : mapGet e.body.description records = none)
    (hs : sync records events = some calls) :
    calls.count (Call.delete e.id) = 1
    ∧ calls.all (fun c => !(refsOrphan e c)) = true := by
  obtain ⟨cs, rem, cs2, hg, hn, hcalls⟩ := sync_inv records events calls hs
  subst hcalls
  constructor
  · rw [List.count_append]
    have h1 : cs.count (Call.delete e.id) = 1 :=
      syncGCal_orphan_count events records cs rem e hg hnd he ho
    have h2 : cs2.count (Call.delete e.id) = 0 := by
      rw [List.count_eq_zero]
      intro hmem
      obtain ⟨kp, hkp, ev, hev, hc⟩ := syncNotion_calls rem cs2 _ hn hmem
      cases hc
    rw [h1, h2]
  · rw [List.all_eq_true]
    intro c hc
    rcases List.mem_append.mp hc with hc1 | hc2
    · cases c with
      | delete i => rfl
      | insert b => exact absurd hc1 (syncGCal_no_insert events records cs rem b hg)
      | update i b =>
        obtain ⟨f, hf, hi, p, hp, hcp⟩ := syncGCal_update_src events records cs rem i b hg hc1
        have hfd : f.body.description ≠ e.body.description := by
          intro hEq
          rw [hEq, ho] at hp
          cases hp
        have hfe : f ≠ e := fun hEq => hfd (by rw [hEq])
        have hide : i ≠ e.id := by
          rw [hi]
          intro hEq
          exact hfe (List.inj_on_of_nodup_map hnd hf he hEq)
        have hbd : b.description ≠ e.body.description := by
          have hbdesc := createEvent_description p b hcp
          have hpid : p.id = f.body.description :=
            hid (f.body.description, p) (mapGet_mem _ _ _ hp)
          rw [hbdesc, hpid]
          exact hfd
        simp [refsOrphan, hide, hbd]
    · obtain ⟨kp, hkp, ev, hev, hc⟩ := syncNotion_calls rem cs2 c hn hc2
      subst hc
      have hsub := syncGCal_sublist events records cs rem hg
      have hkp2 : kp ∈ records := hsub.subset hkp
      have hkd : kp.1 ≠ e.body.description :=
        (mapGet_eq_none_iff _ _).mp ho kp hkp2
      have hbdesc := createEvent_description kp.2 ev hev
      have hkid := hid kp hkp2
      simp [refsOrphan, hbdesc, hkid, hkd]

/-- Witness for C4: one record, one orphaned event; the pass issues exactly
the delete for the orphan and the insert for the record. -/
theorem sync_orphan_exactly_one_delete_witness :
    ([Call.delete c4orphan.id, Call.insert c4built] : List Call).count
        (Call.delete c4orphan.id) = 1
    ∧ ([Call.delete c4orphan.id, Call.insert c4built] : List Call).all
        (fun c => !(refsOrphan c4orphan c)) = true :=
  sync_orphan_exactly_one_delete c4records c4events c4orphan
    [Call.delete c4orphan.id, Call.insert c4built]
    (by decide) (by decide) (by decide) (by decide) (by decide)

/-- C7: for every fetched target event whose description matches a key of
the record map, the calendar pass removes that key from the map whether or
not an update call was issued, so the creation phase issues no insert
carrying that description. -/
theorem sync_matched_removed_no_insert (records : PageMap) (events : List CalEvent)
    (e : CalEvent) (cs1 : List Call) (pagesAfter : PageMap) (calls : List Call)
    (hid : ∀ kp ∈ records, (Prod.snd kp).id = Prod.fst kp)
    (hg : syncGCal events records = some (cs1, pagesAfter))
    (he : e ∈ events)
    (hm : mapGet e.body.description records ≠ none)
    (hs : sync records events = some calls) :
    mapGet e.body.description pagesAfter = none
    ∧ calls.all (fun c => !(insertFor e.body.description c)) = true := by
  have hrem : mapGet e.body.description pagesAfter = none :=
    syncGCal_mem_removed events records cs1 pagesAfter e hg he
  refine ⟨hrem, ?_⟩
  obtain ⟨cs, rem, cs2, hg2, hn, hcalls⟩ := sync_inv records events calls hs
  rw [hg] at hg2
  have hpair := Option.some.inj hg2
  have hcs : cs1 = cs := congrArg Prod.fst hpair
  have hrm : pagesAfter = rem := congrArg Prod.snd hpair
  subst hcalls
  rw [List.all_eq_true]
  intro c hc
  rcases List.mem_append.mp hc with hc1 | hc2
  · cases c with
    | insert b =>
      rw [← hcs] at hc1
      exact absurd hc1 (syncGCal_no_insert events records cs1 pagesAfter b hg)
    | update i b => rfl
    | delete i => rfl
  · obtain ⟨kp, hkp, ev, hev, hceq⟩ := syncNotion_calls rem cs2 c hn hc2
    subst hceq
    rw [← hrm] at hkp
    have hkd : kp.1 ≠ e.body.description :=
      (mapGet_eq_none_iff _ _).mp hrem kp hkp
    have hbdesc := createEvent_description kp.2 ev hev
    have hsub := syncGCal_sublist events records cs1 pagesAfter hg
    have hkp2 : kp ∈ records := hsub.subset hkp
    have hkid := hid kp hkp2
    simp [insertFor, hbdesc, hkid, hkd]

/-- Witness for C7: one record matched by one stale event; the key is gone
from the leftover map and the only calls are the update. -/
theorem sync_matched_removed_no_insert_witness :
    mapGet c7event.body.description [] = none
    ∧ ([Call.update c7event.id c7built] : List Call).all
        (fun c => !(insertFor c7event.body.description c)) = true :=
  sync_matched_removed_no_insert c7records c7events c7event
    [Call.update c7event.id c7built] [] [Call.update c7event.id c7built]
    (by decide) (by decide) (by decide) (by decide) (by decide)

/-- C10: when several fetched events carry the same description matching a
record key, a completed pass keeps the first such event in list order (no
delete call for it) and issues a delete call for every later event carrying
that description.  Hypotheses: event ids are distinct and the events before
the first duplicate carry other descriptions. -/
theorem sync_duplicate_desc (records : PageMap) (pre rest : List CalEvent) (e1 : CalEvent)
    (calls : List Call)
    (hnd : ((pre ++ e1 :: rest).map CalEvent.id).Nodup)
    (hpre : ∀ x ∈ pre, x.body.description ≠ e1.body.description)
    (hk : mapGet e1.body.description records ≠ none)
    (hs : sync records (pre ++ e1 :: rest) = some calls) :
    calls.contains (Call.delete e1.id) = false
    ∧ rest.all (fun e2 => !(e2.body.description == e1.body.description)
        || calls.contains (Call.delete e2.id)) = true := by
  obtain ⟨cs, rem, cs2, hg, hn, hcalls⟩ := sync_inv records _ calls hs
  subst hcalls
  have main := syncGCal_first_dup e1 rest pre records cs rem hg hnd hpre hk
  constructor
  · apply contains_eq_false_of_not_mem
    intro hmem
    rcases List.mem_append.mp hmem with h1 | h2
    · exact main.1 h1
    · obtain ⟨kp, hkp, ev, hev, hc⟩ := syncNotion_calls rem cs2 _ hn h2
      cases hc
  · rw [List.all_eq_true]
    intro e2 he2
    by_cases hdesc : e2.body.description = e1.body.description
    · have hmem : Call.delete e2.id ∈ cs := main.2 e2 he2 hdesc
      have hct := contains_eq_true_of_mem (cs ++ cs2) (Call.delete e2.id)
        (List.mem_append.mpr (Or.inl hmem))
      rw [hct]
      simp
    · simp [hdesc]

/-- Witness for C10: two events with the same matched description; the pass
updates the first and deletes the second. -/
theorem sync_duplicate_desc_witness :
    ([Call.update c10e1.id c10built, Call.delete c10e2.id] : List Call).contains
        (Call.delete c10e1.id) = false
    ∧ ([c10e2] : List CalEvent).all
        (fun e2 => !(e2.body.description == c10e1.body.description)
          || ([Call.update c10e1.id c10built, Call.delete c10e2.id] : List Call).contains
               (Call.delete e2.id)) = true :=
  sync_duplicate_desc c10records [] [c10e2] c10e1
    [Call.update c10e1.id c10built, Call.delete c10e2.id]
    (by decide) (by decide) (by decide) (by decide)
